import Mathlib

/-!
# Tesserae v5 — verification of the match-detection pipeline

A shallow embedding of the Tesserae v5 match-detection pipeline
(tokenization, unitization, feature indexing, matching, presentation),
together with proofs of the specified invariants.

The repository source available here is the demo notebook
`src/demo/tessv5_demo.ipynb`; the pipeline functions it calls
(`tokenize2`/`tokenize`, `Unitizer.unitize`, `AggregationMatcher.match`)
live in the `tesserae` package, which is not part of the sources at hand,
so those operations are modelled from the specification.  The tokenizer
selection expression and the presentation sort are code that appears
verbatim in the notebook and are embedded from it directly.
-/

namespace Tesserae

/-- A corpus document (spec §3 "Text").  Only the fields the claims touch
are carried: the stable identifier and the language. -/
structure Text where
  id : Nat
  language : String
deriving DecidableEq, Repr

/-- Which concrete tokenizer class the pipeline instantiates. -/
inductive TokenizerKind where
  | greek
  | latin
deriving DecidableEq, Repr

/-- Embedded from the demo notebook:
`GreekTokenizer(connection) if tessfile.metadata.language == 'greek' else LatinTokenizer(connection)`
— the choice is decided solely by string equality of the language field
with `'greek'`; every other language falls through to the Latin tokenizer. -/
def selectTokenizer (language : String) : TokenizerKind :=
  if language = "greek" then .greek else .latin

/-- A corpus-deduplicated linguistic feature (spec §3 "Feature"): feature
kind, canonical token string, and the cross-corpus frequency used for
stopword ranking. -/
structure Feature where
  id : Nat
  kind : String
  token : String
  crossFreq : Nat
deriving DecidableEq, Repr

/-- A token as it sits inside a Unit: its display form and the mapping
from feature-kind name to feature identifiers (spec §3 "Token"; a token
with zero recognized features carries an empty mapping). -/
structure UnitToken where
  display : String
  feats : List (String × Nat)
deriving DecidableEq, Repr

/-- A structural unit (spec §3 "Unit"): a Line or Phrase — identifier,
owning Text, unit kind, and its ordered token sequence. -/
structure TUnit where
  id : Nat
  textId : Nat
  kind : String
  tokens : List UnitToken
deriving DecidableEq, Repr

/-- A scored pairing of exactly two Units (spec §3 "Match"): the two unit
references, the shared Features that produced the score, and the score. -/
structure PMatch where
  unit1 : TUnit
  unit2 : TUnit
  sharedFeats : List Feature
  score : Nat
deriving DecidableEq, Repr

/-- Metadata of one matching run (spec §3 "MatchSet"). -/
structure MatchSet where
  unitKind : String
  featureKind : String
  metric : String
  stopwordCount : Nat
  maxDistance : Nat
  textIds : List Nat
deriving DecidableEq, Repr

/-- Configuration errors of a match run (spec §7 taxonomy (a)). -/
inductive ConfigError where
  | unknownMetric (name : String)
deriving DecidableEq, Repr

/-- Modelled from the spec: the named distance-metric strategies the
matcher recognizes (`'span'` is the one exercised by the demo; a frequency
strategy is the other documented option). -/
def recognizedMetrics : List String := ["span", "frequency"]

/-- Stopword ranking order (spec §4.4): features sorted by descending
cross-corpus frequency; ties broken by ascending identifier so the
ranking is deterministic. -/
def featGE (a b : Feature) : Prop :=
  b.crossFreq < a.crossFreq ∨ (b.crossFreq = a.crossFreq ∧ a.id ≤ b.id)

instance : DecidableRel featGE := fun a b => by
  unfold featGE; infer_instance

instance : IsTotal Feature featGE :=
  ⟨by intro a b; unfold featGE; omega⟩

instance : IsTrans Feature featGE :=
  ⟨by intro a b c hab hbc; unfold featGE at hab hbc ⊢; omega⟩

/-- The features of the selected feature kind (spec §4.4: the index is
built "from a selected feature type"). -/
def kindFeatures (feats : List Feature) (fk : String) : List Feature :=
  feats.filter (fun f => f.kind == fk)

/-- Features of the selected kind ranked by descending cross-corpus
frequency (stable, with the deterministic tie-break of `featGE`). -/
def rankedFeatures (feats : List Feature) (fk : String) : List Feature :=
  (kindFeatures feats fk).insertionSort featGE

/-- Modelled from the spec: the stopword set for `stopword_count = n` is
the `n` most cross-corpus-frequent features of the selected kind. -/
def stopFeatures (feats : List Feature) (fk : String) (n : Nat) : List Feature :=
  (rankedFeatures feats fk).take n

/-- Modelled from the spec (§4.4): the features retained in the Feature
Index — everything except the `n` stopworded ones. -/
def retainedFeatures (feats : List Feature) (fk : String) (n : Nat) : List Feature :=
  (rankedFeatures feats fk).drop n

/-- Does unit `u` contain feature `fid` under feature kind `fk`?  A unit
contains a feature when one of its tokens maps kind `fk` to `fid`. -/
def unitHasFeature (u : TUnit) (fk : String) (fid : Nat) : Bool :=
  u.tokens.any (fun t => t.feats.any (fun kf => kf.1 == fk && kf.2 == fid))

/-- The participating units of a run (spec §4.4): units of the selected
granularity whose owning Text is in the participating set. -/
def participatingUnits (units : List TUnit) (textIds : List Nat) (uk : String) :
    List TUnit :=
  units.filter (fun u => u.kind == uk && textIds.contains u.textId)

/-- Modelled from the spec (§4.4): the sparse Feature Index — for each
retained feature, the ordered list of participating units containing it. -/
def featureIndex (feats : List Feature) (units : List TUnit) (textIds : List Nat)
    (fk uk : String) (n : Nat) : List (Feature × List TUnit) :=
  (retainedFeatures feats fk n).map
    (fun f => (f, (participatingUnits units textIds uk).filter
      (fun u => unitHasFeature u fk f.id)))

/-- All ordered pairs of units drawn from *different* Texts (spec §4.5
step 1): each unit is paired with every later unit of another Text. -/
def unitPairs : List TUnit → List (TUnit × TUnit)
  | [] => []
  | u :: rest =>
      ((rest.filter (fun v => v.textId != u.textId)).map (fun v => (u, v))) ++
        unitPairs rest

/-- A candidate unit pair together with its accumulated shared features
(spec §4.5 step 2). -/
structure Candidate where
  u1 : TUnit
  u2 : TUnit
  shared : List Feature
deriving DecidableEq, Repr

/-- The retained features occurring in both units of a pair (spec §4.5
step 2: the accumulated shared-feature set of the pair). -/
def sharedOf (feats : List Feature) (fk : String) (n : Nat) (p : TUnit × TUnit) :
    List Feature :=
  (retainedFeatures feats fk n).filter
    (fun f => unitHasFeature p.1 fk f.id && unitHasFeature p.2 fk f.id)

/-- Turn one unit pair into a candidate, or nothing when the pair shares
no retained feature. -/
def mkCandidate (feats : List Feature) (fk : String) (n : Nat) (p : TUnit × TUnit) :
    Option Candidate :=
  if (sharedOf feats fk n p).isEmpty then none
  else some ⟨p.1, p.2, sharedOf feats fk n p⟩

/-- Modelled from the spec (§4.5 steps 1–2): enumerate pairs of units
from different Texts and accumulate, per pair, the set of retained
features occurring in both units; pairs sharing no retained feature are
not candidates. -/
def candidates (feats : List Feature) (units : List TUnit) (textIds : List Nat)
    (fk uk : String) (n : Nat) : List Candidate :=
  (unitPairs (participatingUnits units textIds uk)).filterMap
    (mkCandidate feats fk n)

/-- The token positions inside `u` at which some shared feature occurs. -/
def featPositions (u : TUnit) (fk : String) (shared : List Feature) : List Nat :=
  (u.tokens.enum.filter
    (fun it => shared.any (fun f => it.2.feats.any
      (fun kf => kf.1 == fk && kf.2 == f.id)))).map (fun it => it.1)

/-- Modelled from the spec (§4.5 step 3, the `span` metric): the word-span
between the first and the last shared-feature occurrence in the unit. -/
def unitSpan (u : TUnit) (fk : String) (shared : List Feature) : Nat :=
  match featPositions u fk shared with
  | [] => 0
  | p :: ps => ps.foldl max p - ps.foldl min p

/-- Modelled from the spec (§4.5 step 3): a candidate pair survives the
distance filter exactly when its span in *each* unit is within
`max_distance`. -/
def survives (fk : String) (maxDist : Nat) (c : Candidate) : Bool :=
  decide (unitSpan c.u1 fk c.shared ≤ maxDist) &&
    decide (unitSpan c.u2 fk c.shared ≤ maxDist)

/-- The candidate pairs surviving the distance filter. -/
def surviving (feats : List Feature) (units : List TUnit) (textIds : List Nat)
    (fk uk : String) (n maxDist : Nat) : List Candidate :=
  (candidates feats units textIds fk uk n).filter (survives fk maxDist)

/-- Inverse-frequency weight of a shared feature (spec §4.5 step 2:
"rarer shared features contribute more"). -/
def invWeight (f : Feature) : Nat := 1000 / (f.crossFreq + 1)

/-- Raw match weight of a candidate: sum of the shared features'
inverse-frequency weights. -/
def rawWeight (c : Candidate) : Nat := (c.shared.map invWeight).sum

/-- Modelled from the spec (§4.5 step 4): the exact scoring formula is a
configuration point; this model fixes one deterministic monotone
combination — the raw weight scaled by a proximity bonus that is larger
the denser the shared features sit. -/
def scoreOf (fk : String) (maxDist : Nat) (c : Candidate) : Nat :=
  rawWeight c *
    (2 * maxDist + 1 - (unitSpan c.u1 fk c.shared + unitSpan c.u2 fk c.shared))

/-- Modelled from the spec (§4.5): `AggregationMatcher.match`.  An
unrecognized distance-metric name is a configuration error reported
before any Feature Index is built; otherwise the surviving candidates are
turned into Matches grouped under a fresh MatchSet carrying the run's
parameters. -/
def matcherMatch (feats : List Feature) (units : List TUnit) (texts : List Text)
    (uk fk metric : String) (n maxDist : Nat) :
    Except ConfigError (List PMatch × MatchSet) :=
  if recognizedMetrics.contains metric then
    let textIds := texts.map (fun t => t.id)
    let ms : MatchSet := ⟨uk, fk, metric, n, maxDist, textIds⟩
    .ok ((surviving feats units textIds fk uk n maxDist).map
      (fun c => ⟨c.u1, c.u2, c.shared, scoreOf fk maxDist c⟩), ms)
  else
    .error (.unknownMetric metric)

/-- Embedded from the demo notebook:
`matches.sort(key=lambda x: x.score, reverse=True)` — Python's sort is
stable, and `reverse=True` keeps equal elements in their original order,
so the presentation sort is the stable sort by descending score. -/
def sortMatches (ms : List PMatch) : List PMatch :=
  ms.insertionSort (fun a b => b.score ≤ a.score)

/-!
## A concrete two-text corpus

The "Arma virumque cano" / "Musa virumque cano" scenario from the
specification's testable properties, used as the concrete witness corpus.
-/

def fArma : Feature := ⟨1, "form", "arma", 1⟩

def fVirumque : Feature := ⟨2, "form", "virumque", 2⟩

def fCano : Feature := ⟨3, "form", "cano", 2⟩

def fMusa : Feature := ⟨4, "form", "musa", 1⟩

def wFeats : List Feature := [fArma, fVirumque, fCano, fMusa]

def uArma : TUnit :=
  ⟨1, 1, "phrase",
    [⟨"Arma", [("form", 1)]⟩, ⟨"virumque", [("form", 2)]⟩, ⟨"cano", [("form", 3)]⟩]⟩

def uMusa : TUnit :=
  ⟨2, 2, "phrase",
    [⟨"Musa", [("form", 4)]⟩, ⟨"virumque", [("form", 2)]⟩, ⟨"cano", [("form", 3)]⟩]⟩

def wUnits : List TUnit := [uArma, uMusa]

def wTexts : List Text := [⟨1, "latin"⟩, ⟨2, "latin"⟩]

/-- The single match the model finds on the witness corpus. -/
def wMatch1 : PMatch := ⟨uArma, uMusa, [fVirumque, fCano], 12654⟩

/-- The full result of the witness run. -/
def wRes : List PMatch × MatchSet :=
  ([wMatch1], ⟨"phrase", "form", "span", 0, 10, [1, 2]⟩)

/-- A tied match whose units carry the larger identifiers. -/
def tieHigh : PMatch := ⟨⟨7, 3, "phrase", []⟩, ⟨8, 4, "phrase", []⟩, [], 5⟩

/-- A tied match whose units carry the smaller identifiers. -/
def tieLow : PMatch := ⟨⟨1, 1, "phrase", []⟩, ⟨2, 2, "phrase", []⟩, [], 5⟩

/-!
## Tokenizer and Unitizer
-/

/-- Per-language normalization and feature extraction (spec §4.1
"Language Profile"): `normalize` folds a raw word to its normalized form
and `extractFeatures` maps a normalized form to an ordered mapping from
feature-kind name to feature tokens; an unrecognized word yields an
empty mapping, never an error. -/
structure LangProfile where
  normalize : String → String
  extractFeatures : String → List (String × List String)

/-- A token produced by tokenization (spec §3 "Token"): display form,
normalized form, positional index, owning Text, and the mapping from
feature-kind name to feature tokens. -/
structure TToken where
  display : String
  norm : String
  index : Nat
  textId : Nat
  feats : List (String × List String)
deriving DecidableEq, Repr

/-- One corpus-level frequency entry: the occurrence count of a feature
(kind and canonical token), scoped to one owning Text. -/
structure FreqEntry where
  kind : String
  ftoken : String
  textId : Nat
  count : Nat
deriving DecidableEq, Repr

/-- The raw word spans of one source line (whitespace split, empty spans
dropped). -/
def lineWords (s : String) : List String :=
  (s.splitOn " ").filter (fun w => !w.isEmpty)

/-- Modelled from the spec (§4.2): tokenize one source line — each word
span is normalized via the Language Profile and paired with the line's
citation tag (the tag repeated once per token); empty lines produce no
tokens but still advance the positional index counter. -/
def tokenizeLine (p : LangProfile) (textId startIdx : Nat) (tag line : String) :
    List TToken × List String × Nat :=
  let ws := lineWords line
  (ws.enum.map (fun iw =>
      ⟨iw.2, p.normalize iw.2, startIdx + iw.1, textId,
        p.extractFeatures (p.normalize iw.2)⟩),
    ws.map (fun _ => tag),
    if ws.isEmpty then startIdx + 1 else startIdx + ws.length)

/-- Tokenize a sequence of (citation tag, raw line) pairs, threading the
positional index counter across lines. -/
def tokenizeLines (p : LangProfile) (textId : Nat) :
    List (String × String) → Nat → List TToken × List String
  | [], _ => ([], [])
  | (tag, line) :: rest, idx =>
      let out := tokenizeLine p textId idx tag line
      let outRest := tokenizeLines p textId rest out.2.2
      (out.1 ++ outRest.1, out.2.1 ++ outRest.2)

/-- All (kind, feature token) occurrences extracted from a token list. -/
def featOccurrences (toks : List TToken) : List (String × String) :=
  toks.flatMap (fun t => t.feats.flatMap
    (fun kf => kf.2.map (fun ft => (kf.1, ft))))

/-- Modelled from the spec (§4.2): the per-Text frequency entries
recomputed from one tokenization — features are deduplicated by
(kind, canonical token) and counted over the token sequence, scoped to
the owning Text. -/
def newFreqEntries (textId : Nat) (toks : List TToken) : List FreqEntry :=
  ((featOccurrences toks).dedup).map
    (fun kt => ⟨kt.1, kt.2, textId, (featOccurrences toks).count kt⟩)

/-- Modelled from the spec (§4.2): `tokenize2` — returns the three
aligned output sequences: the Tokens, the per-token structural tags (the
citation tag repeated for tokens on the same source line), and the newly
created or updated Feature frequency entries. -/
def tokenize2 (p : LangProfile) (text : Text) (srcLines : List (String × String)) :
    List TToken × List String × List FreqEntry :=
  let out := tokenizeLines p text.id srcLines 0
  (out.1, out.2, newFreqEntries text.id out.1)

/-- Modelled from the spec (§4.2 side effect): updating the shared
corpus-level Feature frequency table with one Text's recomputed entries
replaces that Text's previous entries instead of adding to them, so
repeated runs do not double-count. -/
def updateFreqTable (tbl : List FreqEntry) (textId : Nat)
    (entries : List FreqEntry) : List FreqEntry :=
  tbl.filter (fun e => e.textId != textId) ++ entries

/-- One full tokenization pass of a Text: the pure tokenization output
together with the updated shared frequency table. -/
def ingest (p : LangProfile) (text : Text) (srcLines : List (String × String))
    (tbl : List FreqEntry) :
    (List TToken × List String × List FreqEntry) × List FreqEntry :=
  (tokenize2 p text srcLines,
    updateFreqTable tbl text.id (tokenize2 p text srcLines).2.2)

/-- A structural unit over tokenizer tokens (spec §4.3 output): unit
kind, owning Text, the citation tags of its first and last token's
lines, and the ordered token sequence. -/
structure TextUnit where
  kind : String
  textId : Nat
  tagFirst : String
  tagLast : String
  tokens : List TToken
deriving DecidableEq, Repr

/-- The citation tag of the first token of a group. -/
def firstTag (grp : List (TToken × String)) : String :=
  match grp with
  | [] => ""
  | x :: _ => x.2

/-- The citation tag of the last token of a group. -/
def lastTag (grp : List (TToken × String)) : String :=
  match grp.getLast? with
  | none => ""
  | some x => x.2

/-- Group consecutive tokens sharing the same source-line tag (spec
§4.3: "Lines are formed by grouping tokens sharing the same source-line
tag, in token order"). -/
def chunkByTag : List (TToken × String) → List (List (TToken × String))
  | [] => []
  | x :: xs =>
      (x :: xs.takeWhile (fun y => y.2 == x.2)) ::
        chunkByTag (xs.dropWhile (fun y => y.2 == x.2))
termination_by l => l.length
decreasing_by
  simp only [List.length_cons]
  exact Nat.lt_succ_of_le (List.dropWhile_sublist _).length_le

/-- Does this token close a phrase? (spec §4.3: sentence-terminal
punctuation — period, semicolon, or question mark). -/
def isPhraseEnd (t : TToken) : Bool :=
  t.display.endsWith "." || t.display.endsWith ";" || t.display.endsWith "?"

/-- Modelled from the spec (§4.3): scan the token stream and close a
phrase at sentence-terminal punctuation or at the configured maximum
phrase length, whichever comes first; the trailing partial phrase at
end-of-text is still emitted. -/
def splitPhrases (maxLen : Nat) :
    List (TToken × String) → List (TToken × String) → List (List (TToken × String))
  | [], acc => if acc.isEmpty then [] else [acc.reverse]
  | x :: xs, acc =>
      if isPhraseEnd x.1 || maxLen ≤ acc.length + 1 then
        (x :: acc).reverse :: splitPhrases maxLen xs []
      else
        splitPhrases maxLen xs (x :: acc)

/-- Build a Line unit from one tag group. -/
def mkLine (textId : Nat) (grp : List (TToken × String)) : TextUnit :=
  ⟨"line", textId, firstTag grp, lastTag grp, grp.map (fun x => x.1)⟩

/-- Build a Phrase unit from one phrase group; its citation tags are the
tags of its first and last token's lines. -/
def mkPhrase (textId : Nat) (grp : List (TToken × String)) : TextUnit :=
  ⟨"phrase", textId, firstTag grp, lastTag grp, grp.map (fun x => x.1)⟩

/-- Modelled from the spec (§4.3): `Unitizer.unitize` — group the token
stream into Lines (tokens sharing a source-line tag) and Phrases (closed
at sentence-terminal punctuation or at the maximum phrase length);
returns the two ordered unit sequences. -/
def unitize (toks : List TToken) (tags : List String) (text : Text)
    (maxLen : Nat) : List TextUnit × List TextUnit :=
  let pairs := toks.zip tags
  ((chunkByTag pairs).map (mkLine text.id),
    (splitPhrases maxLen pairs []).map (mkPhrase text.id))

/-- Witness tokens: a two-token text. -/
def wToks : List TToken :=
  [⟨"Arma", "arma", 0, 1, [("form", ["arma"])]⟩,
    ⟨"cano.", "cano", 1, 1, [("form", ["cano"])]⟩]

/-- Witness tags: both tokens sit on source line 1.1. -/
def wTags : List String := ["1.1", "1.1"]

end Tesserae

namespace Tesserae

/-! ## Helper lemmas about the matcher -/

/-- Every pair enumerated by `unitPairs` draws its two units from
different Texts. -/
theorem unitPairs_textId_ne :
    ∀ {l : List TUnit} {p : TUnit × TUnit},
      p ∈ unitPairs l → p.1.textId ≠ p.2.textId := by
  intro l
  induction l with
  | nil => intro p h; simp [unitPairs] at h
  | cons u rest ih =>
    intro p h
    simp only [unitPairs, List.mem_append, List.mem_map, List.mem_filter] at h
    rcases h with ⟨v, ⟨_, hne⟩, rfl⟩ | h
    · simp only [bne_iff_ne] at hne
      exact fun hEq => hne hEq.symm
    · exact ih h

/-- Characterization of a successful `mkCandidate`. -/
theorem mkCandidate_eq_some {feats : List Feature} {fk : String} {n : Nat}
    {p : TUnit × TUnit} {c : Candidate}
    (h : mkCandidate feats fk n p = some c) :
    c = ⟨p.1, p.2, sharedOf feats fk n p⟩ ∧ sharedOf feats fk n p ≠ [] := by
  unfold mkCandidate at h
  split at h
  · cases h
  · rename_i hne
    cases h
    refine ⟨rfl, ?_⟩
    simpa [List.isEmpty_iff] using hne

/-- Every candidate comes from a pair of units of different Texts, and
its shared-feature set is the nonempty filter of the retained features. -/
theorem mem_candidates {feats : List Feature} {units : List TUnit}
    {textIds : List Nat} {fk uk : String} {n : Nat} {c : Candidate}
    (h : c ∈ candidates feats units textIds fk uk n) :
    c.u1.textId ≠ c.u2.textId ∧
      c.shared = sharedOf feats fk n (c.u1, c.u2) ∧ c.shared ≠ [] := by
  obtain ⟨p, hp, he⟩ := List.mem_filterMap.mp h
  obtain ⟨hc, hne⟩ := mkCandidate_eq_some he
  subst hc
  exact ⟨unitPairs_textId_ne hp, rfl, hne⟩

/-- C1: every Match produced by a matching run pairs two Units owned by
two distinct Texts; no Match ever pairs two Units of the same Text. -/
theorem match_units_distinct_texts
    (feats : List Feature) (units : List TUnit) (texts : List Text)
    (uk fk metric : String) (n maxDist : Nat)
    (res : List PMatch × MatchSet)
    (hok : matcherMatch feats units texts uk fk metric n maxDist = Except.ok res)
    (m : PMatch) (hm : m ∈ res.1) : m.unit1.textId ≠ m.unit2.textId := by
  unfold matcherMatch at hok
  split at hok
  · cases hok
    simp only [List.mem_map] at hm
    obtain ⟨c, hc, rfl⟩ := hm
    exact (mem_candidates (List.mem_of_mem_filter hc)).1
  · cases hok

/-- C1 witness: the run over the two-text witness corpus produces a
match, and its two units indeed come from distinct Texts. -/
theorem match_units_distinct_texts_witness :
    wMatch1.unit1.textId ≠ wMatch1.unit2.textId :=
  match_units_distinct_texts wFeats wUnits wTexts "phrase" "form" "span" 0 10
    wRes rfl wMatch1 (by decide)

/-- C3: for any fixed corpus and configuration, the candidate pairs
surviving the distance filter at `d1 ≤ d2` are a sublist (hence a subset)
of those surviving at `d2`, and their number is monotonically
non-decreasing in `max_distance`. -/
theorem surviving_monotone
    (feats : List Feature) (units : List TUnit) (textIds : List Nat)
    (fk uk : String) (n : Nat) (d1 d2 : Nat) (h : d1 ≤ d2) :
    List.Sublist (surviving feats units textIds fk uk n d1)
        (surviving feats units textIds fk uk n d2) ∧
      (∀ c ∈ surviving feats units textIds fk uk n d1,
        c ∈ surviving feats units textIds fk uk n d2) ∧
      (surviving feats units textIds fk uk n d1).length ≤
        (surviving feats units textIds fk uk n d2).length := by
  have himp : ∀ c, survives fk d1 c → survives fk d2 c := by
    intro c hc
    simp only [survives, Bool.and_eq_true, decide_eq_true_eq] at hc ⊢
    exact ⟨le_trans hc.1 h, le_trans hc.2 h⟩
  have hsub : List.Sublist (surviving feats units textIds fk uk n d1)
      (surviving feats units textIds fk uk n d2) :=
    List.monotone_filter_right _ himp
  exact ⟨hsub, fun c hc => hsub.mem hc, hsub.length_le⟩

/-- C3 witness: on the witness corpus the count of survivors at
`max_distance = 0` does not exceed the count at `max_distance = 10`. -/
theorem surviving_monotone_witness :
    (surviving wFeats wUnits [1, 2] "form" "phrase" 0 0).length ≤
      (surviving wFeats wUnits [1, 2] "form" "phrase" 0 10).length :=
  (surviving_monotone wFeats wUnits [1, 2] "form" "phrase" 0 0 10
    (by decide)).2.2

/-- When every unit of `l` is owned by the same Text, no cross-Text pair
can be enumerated. -/
theorem unitPairs_nil_of_same_text {l : List TUnit}
    (h : ∀ u ∈ l, ∀ v ∈ l, u.textId = v.textId) : unitPairs l = [] := by
  induction l with
  | nil => rfl
  | cons u rest ih =>
    unfold unitPairs
    rw [List.append_eq_nil]
    constructor
    · rw [List.map_eq_nil_iff, List.filter_eq_nil_iff]
      intro v hv
      simp only [bne_iff_ne, ne_eq, Decidable.not_not]
      exact h v (List.mem_cons_of_mem _ hv) u (List.mem_cons_self _ _)
    · exact ih fun a ha b hb =>
        h a (List.mem_cons_of_mem _ ha) b (List.mem_cons_of_mem _ hb)

/-- C7: a matching run over a participating Text set with fewer than two
distinct Texts returns an empty MatchSet and does not raise an error. -/
theorem match_single_text_empty
    (feats : List Feature) (units : List TUnit) (texts : List Text)
    (uk fk metric : String) (n maxDist : Nat)
    (hmet : metric ∈ recognizedMetrics)
    (ht : ∀ t1 ∈ texts, ∀ t2 ∈ texts, Text.id t1 = Text.id t2) :
    matcherMatch feats units texts uk fk metric n maxDist =
      Except.ok ([], ⟨uk, fk, metric, n, maxDist, texts.map (fun t => t.id)⟩) := by
  have hpairs :
      unitPairs (participatingUnits units (texts.map (fun t => t.id)) uk) = [] := by
    apply unitPairs_nil_of_same_text
    intro a ha b hb
    have ha' := (List.mem_filter.mp ha).2
    have hb' := (List.mem_filter.mp hb).2
    simp only [Bool.and_eq_true, List.elem_iff, decide_eq_true_eq,
      List.mem_map] at ha' hb'
    obtain ⟨t1, ht1, he1⟩ := ha'.2
    obtain ⟨t2, ht2, he2⟩ := hb'.2
    rw [← he1, ← he2]
    exact ht t1 ht1 t2 ht2
  unfold matcherMatch
  rw [if_pos (by simpa [List.elem_iff] using hmet)]
  simp [surviving, candidates, hpairs]

/-- C7 witness: a run whose participating set is the single Text 1 yields
an empty match list without an error. -/
theorem match_single_text_empty_witness :
    matcherMatch wFeats wUnits [⟨1, "latin"⟩] "phrase" "form" "span" 0 10 =
      Except.ok ([], ⟨"phrase", "form", "span", 0, 10, [1]⟩) :=
  match_single_text_empty wFeats wUnits [⟨1, "latin"⟩] "phrase" "form" "span" 0 10
    (by decide) (by decide)

/-- C8: a matching run invoked with an unrecognized distance-metric name
reports a configuration error naming the metric, before any Feature Index
is built or candidate enumerated. -/
theorem match_unknown_metric_error
    (feats : List Feature) (units : List TUnit) (texts : List Text)
    (uk fk metric : String) (n maxDist : Nat)
    (h : metric ∉ recognizedMetrics) :
    matcherMatch feats units texts uk fk metric n maxDist =
      Except.error (ConfigError.unknownMetric metric) := by
  unfold matcherMatch
  rw [if_neg (by simpa [List.elem_iff] using h)]

/-- C8 witness: the metric name `"bogus"` is rejected as a configuration
error. -/
theorem match_unknown_metric_error_witness :
    matcherMatch wFeats wUnits wTexts "phrase" "form" "bogus" 0 10 =
      Except.error (ConfigError.unknownMetric "bogus") :=
  match_unknown_metric_error wFeats wUnits wTexts "phrase" "form" "bogus" 0 10
    (by decide)

/-- The ranked feature list is sorted by the stopword ranking order. -/
theorem rankedFeatures_sorted (feats : List Feature) (fk : String) :
    (rankedFeatures feats fk).Sorted featGE :=
  List.sorted_insertionSort featGE _

/-- Ranking permutes the features of the selected kind. -/
theorem rankedFeatures_perm (feats : List Feature) (fk : String) :
    (rankedFeatures feats fk).Perm (kindFeatures feats fk) :=
  List.perm_insertionSort featGE _

/-- Every stopworded feature has cross-corpus frequency at least that of
every retained feature. -/
theorem stop_freq_ge_retained (feats : List Feature) (fk : String) (n : Nat) :
    ∀ f ∈ stopFeatures feats fk n, ∀ g ∈ retainedFeatures feats fk n,
      g.crossFreq ≤ f.crossFreq := by
  intro f hf g hg
  have hp : ((rankedFeatures feats fk).take n ++
      (rankedFeatures feats fk).drop n).Pairwise featGE := by
    rw [List.take_append_drop]
    exact rankedFeatures_sorted feats fk
  have hge : featGE f g := (List.pairwise_append.mp hp).2.2 f hf g hg
  rcases hge with h | ⟨h, _⟩
  · exact le_of_lt h
  · exact le_of_eq h

/-- C2: with `stopword_count = n`, exactly the `n` features of the
selected kind with the highest cross-corpus frequency rank are excluded:
the stopword set has size `n`, each stopworded feature is at least as
frequent as every retained one, the Feature Index is built over exactly
the retained features, and no Match of the run attributes a stopworded
feature in its shared-feature set. -/
theorem stopwords_excluded
    (feats : List Feature) (units : List TUnit) (texts : List Text)
    (uk fk metric : String) (n maxDist : Nat)
    (hn : n ≤ (kindFeatures feats fk).length)
    (hnodup : ((kindFeatures feats fk).map (fun f => f.id)).Nodup)
    (res : List PMatch × MatchSet)
    (hok : matcherMatch feats units texts uk fk metric n maxDist = Except.ok res) :
    (stopFeatures feats fk n).length = n ∧
      (∀ f ∈ stopFeatures feats fk n, ∀ g ∈ retainedFeatures feats fk n,
        g.crossFreq ≤ f.crossFreq) ∧
      (featureIndex feats units (texts.map (fun t => t.id)) fk uk n).map Prod.fst =
        retainedFeatures feats fk n ∧
      ∀ m ∈ res.1, ∀ f ∈ m.sharedFeats,
        f.id ∉ (stopFeatures feats fk n).map (fun f => f.id) := by
  have hlen : (rankedFeatures feats fk).length = (kindFeatures feats fk).length :=
    (rankedFeatures_perm feats fk).length_eq
  refine ⟨?_, stop_freq_ge_retained feats fk n, ?_, ?_⟩
  · unfold stopFeatures
    rw [List.length_take, hlen]
    exact Nat.min_eq_left hn
  · simp [featureIndex, List.map_map, Function.comp_def]
  · have hrnodup : ((rankedFeatures feats fk).map (fun f => f.id)).Nodup :=
      (((rankedFeatures_perm feats fk).map (fun f => f.id)).nodup_iff).mpr hnodup
    have hsplit : (rankedFeatures feats fk).map (fun f => f.id) =
        (stopFeatures feats fk n).map (fun f => f.id) ++
          (retainedFeatures feats fk n).map (fun f => f.id) := by
      unfold stopFeatures retainedFeatures
      rw [← List.map_append, List.take_append_drop]
    rw [hsplit] at hrnodup
    have hdisj := (List.nodup_append.mp hrnodup).2.2
    intro m hm f hf
    unfold matcherMatch at hok
    split at hok
    · cases hok
      simp only [List.mem_map] at hm
      obtain ⟨c, hc, rfl⟩ := hm
      obtain ⟨-, hsh, -⟩ := mem_candidates (List.mem_of_mem_filter hc)
      have hfr : f ∈ retainedFeatures feats fk n := by
        rw [hsh] at hf
        exact List.mem_of_mem_filter hf
      intro hmem
      exact hdisj hmem (List.mem_map.mpr ⟨f, hfr, rfl⟩)
    · cases hok

/-- C2 witness: on the witness corpus with `stopword_count = 2`, the
stopword set has exactly two features and the run (which returns no
matches) satisfies the claim. -/
theorem stopwords_excluded_witness :
    (stopFeatures wFeats "form" 2).length = 2 :=
  (stopwords_excluded wFeats wUnits wTexts "phrase" "form" "span" 2 10
    (by decide) (by decide) ([], ⟨"phrase", "form", "span", 2, 10, [1, 2]⟩)
    rfl).1

/-- C6 counterexample: the presentation sort
(`matches.sort(key=lambda x: x.score, reverse=True)`) breaks no ties by
identifier — two equal-score matches stay in their input order even when
the later one has strictly smaller Text and Unit identifiers, so ties are
not ordered by ascending Text/Unit identifier. -/
theorem sortMatches_no_id_tiebreak :
    tieHigh.score = tieLow.score ∧
      sortMatches [tieHigh, tieLow] = [tieHigh, tieLow] ∧
      tieLow.unit1.id < tieHigh.unit1.id ∧
      tieLow.unit1.textId < tieHigh.unit1.textId := by
  decide

/-- C6 amended: the presentation sort is a deterministic stable sort by
descending score — it permutes its input, its output is sorted by
non-increasing score, and equal-score matches keep their original
relative order (no identifier tie-break). -/
theorem sortMatches_deterministic_stable (l : List PMatch) :
    (sortMatches l).Perm l ∧
      (sortMatches l).Sorted (fun a b => b.score ≤ a.score) ∧
      ∀ a b : PMatch, List.Sublist [a, b] l → a.score = b.score →
        List.Sublist [a, b] (sortMatches l) := by
  haveI : IsTotal PMatch (fun a b => b.score ≤ a.score) :=
    ⟨fun a b => Nat.le_total b.score a.score⟩
  haveI : IsTrans PMatch (fun a b => b.score ≤ a.score) :=
    ⟨fun _ _ _ h1 h2 => le_trans h2 h1⟩
  unfold sortMatches
  refine ⟨List.perm_insertionSort _ l, List.sorted_insertionSort _ l, ?_⟩
  intro a b hab hs
  exact List.pair_sublist_insertionSort (le_of_eq hs.symm) hab

/-- C6 amended witness: applying the stability clause to the two tied
matches keeps them in input order. -/
theorem sortMatches_deterministic_stable_witness :
    List.Sublist [tieHigh, tieLow] (sortMatches [tieHigh, tieLow]) :=
  (sortMatches_deterministic_stable [tieHigh, tieLow]).2.2 tieHigh tieLow
    (List.Sublist.refl _) rfl

/-! ## Tokenizer and Unitizer theorems -/

/-- `tokenizeLines` emits exactly one citation tag per token. -/
theorem tokenizeLines_aligned (p : LangProfile) (tid : Nat) :
    ∀ (srcLines : List (String × String)) (idx : Nat),
      (tokenizeLines p tid srcLines idx).1.length =
        (tokenizeLines p tid srcLines idx).2.length := by
  intro srcLines
  induction srcLines with
  | nil => intro idx; rfl
  | cons hd tl ih =>
    intro idx
    obtain ⟨tag, line⟩ := hd
    simp [tokenizeLines, tokenizeLine, ih]

/-- Every frequency entry recomputed from one tokenization is scoped to
the owning Text. -/
theorem newFreqEntries_textId (tid : Nat) (toks : List TToken) :
    ∀ e ∈ newFreqEntries tid toks, e.textId = tid := by
  intro e he
  simp only [newFreqEntries, List.mem_map] at he
  obtain ⟨kt, _, rfl⟩ := he
  rfl

/-- C5: `tokenize2` returns three aligned sequences — the Token sequence
and the per-token structural tag sequence have equal length (one
citation tag per token, the tag repeated for tokens of the same source
line), and the Feature frequency entries are all scoped to the owning
Text. -/
theorem tokenize2_aligned (p : LangProfile) (text : Text)
    (srcLines : List (String × String)) :
    (tokenize2 p text srcLines).1.length =
        (tokenize2 p text srcLines).2.1.length ∧
      ∀ e ∈ (tokenize2 p text srcLines).2.2, e.textId = text.id := by
  exact ⟨tokenizeLines_aligned p text.id srcLines 0,
    fun e he => newFreqEntries_textId text.id _ e he⟩

/-- C4: re-tokenizing the same Text is idempotent — the second run
returns exactly the same Tokens, tags, and Feature entries as the first,
and re-updating the shared frequency table with the recomputed entries
leaves the table exactly as after the first run (no double-counting). -/
theorem retokenize_idempotent (p : LangProfile) (text : Text)
    (srcLines : List (String × String)) (tbl : List FreqEntry) :
    (ingest p text srcLines (ingest p text srcLines tbl).2).1 =
        (ingest p text srcLines tbl).1 ∧
      (ingest p text srcLines (ingest p text srcLines tbl).2).2 =
        (ingest p text srcLines tbl).2 := by
  refine ⟨rfl, ?_⟩
  have hT : ∀ e ∈ (tokenize2 p text srcLines).2.2, e.textId = text.id :=
    fun e he => newFreqEntries_textId text.id _ e he
  simp only [ingest]
  unfold updateFreqTable
  rw [List.filter_append]
  have h1 : List.filter (fun e => e.textId != text.id)
      (List.filter (fun e => e.textId != text.id) tbl) =
        List.filter (fun e => e.textId != text.id) tbl := by
    rw [List.filter_filter]
    simp
  have h2 : List.filter (fun e => e.textId != text.id)
      (tokenize2 p text srcLines).2.2 = [] := by
    rw [List.filter_eq_nil_iff]
    intro e he
    simp [hT e he]
  rw [h1, h2, List.append_nil]

/-- The line groups concatenate back to the input stream. -/
theorem chunkByTag_flatten :
    ∀ l : List (TToken × String), (chunkByTag l).flatten = l := by
  intro l
  induction l using chunkByTag.induct with
  | case1 => simp [chunkByTag]
  | case2 x xs ih =>
    rw [chunkByTag]
    simp only [List.flatten_cons, ih, List.cons_append]
    rw [List.takeWhile_append_dropWhile]

/-- No line group is empty. -/
theorem chunkByTag_ne_nil :
    ∀ (l : List (TToken × String)) (c : List (TToken × String)),
      c ∈ chunkByTag l → c ≠ [] := by
  intro l
  induction l using chunkByTag.induct with
  | case1 => intro c hc; simp [chunkByTag] at hc
  | case2 x xs ih =>
    intro c hc
    rw [chunkByTag] at hc
    rcases List.mem_cons.mp hc with rfl | hc
    · exact List.cons_ne_nil _ _
    · exact ih c hc

/-- The phrase groups concatenate back to the accumulator followed by
the remaining stream. -/
theorem splitPhrases_flatten (maxLen : Nat) :
    ∀ (l acc : List (TToken × String)),
      (splitPhrases maxLen l acc).flatten = acc.reverse ++ l := by
  intro l
  induction l with
  | nil =>
    intro acc
    unfold splitPhrases
    split
    · rename_i hemp
      simp [List.isEmpty_iff.mp hemp]
    · simp
  | cons x xs ih =>
    intro acc
    unfold splitPhrases
    split
    · simp [ih, List.reverse_cons]
    · rw [ih]
      simp [List.reverse_cons]

/-- No emitted phrase group is empty. -/
theorem splitPhrases_ne_nil (maxLen : Nat) :
    ∀ (l acc c : List (TToken × String)),
      c ∈ splitPhrases maxLen l acc → c ≠ [] := by
  intro l
  induction l with
  | nil =>
    intro acc c hc
    unfold splitPhrases at hc
    split at hc
    · simp at hc
    · rename_i hemp
      rcases List.mem_singleton.mp hc with rfl
      simp only [ne_eq, List.reverse_eq_nil_iff]
      exact fun h => hemp (h ▸ rfl)
  | cons x xs ih =>
    intro acc c hc
    unfold splitPhrases at hc
    split at hc
    · rcases List.mem_cons.mp hc with rfl | hc
      · simp
      · exact ih [] c hc
    · exact ih (x :: acc) c hc

/-- C9: unitizing a token sequence (one tag per token) puts every token
into exactly one Line and exactly one Phrase — the concatenations of the
Line units' and of the Phrase units' token sequences are both exactly
the input token sequence (so the trailing partial phrase is emitted),
and no emitted unit has an empty token sequence. -/
theorem unitize_partition (toks : List TToken) (tags : List String)
    (text : Text) (maxLen : Nat) (h : toks.length = tags.length) :
    (((unitize toks tags text maxLen).1.map TextUnit.tokens).flatten = toks) ∧
      (((unitize toks tags text maxLen).2.map TextUnit.tokens).flatten = toks) ∧
      (∀ u ∈ (unitize toks tags text maxLen).1, u.tokens ≠ []) ∧
      (∀ u ∈ (unitize toks tags text maxLen).2, u.tokens ≠ []) := by
  have hfst : (toks.zip tags).map Prod.fst = toks :=
    List.map_fst_zip toks tags (le_of_eq h)
  refine ⟨?_, ?_, ?_, ?_⟩
  · show (((chunkByTag (toks.zip tags)).map (mkLine text.id)).map
      TextUnit.tokens).flatten = toks
    rw [List.map_map]
    have : (TextUnit.tokens ∘ mkLine text.id) =
        fun grp => grp.map Prod.fst := rfl
    rw [this, ← List.map_flatten, chunkByTag_flatten, hfst]
  · show (((splitPhrases maxLen (toks.zip tags) []).map (mkPhrase text.id)).map
      TextUnit.tokens).flatten = toks
    rw [List.map_map]
    have : (TextUnit.tokens ∘ mkPhrase text.id) =
        fun grp => grp.map Prod.fst := rfl
    rw [this, ← List.map_flatten, splitPhrases_flatten, List.reverse_nil,
      List.nil_append, hfst]
  · intro u hu
    obtain ⟨grp, hgrp, rfl⟩ := List.mem_map.mp hu
    have hne := chunkByTag_ne_nil _ grp hgrp
    simpa [mkLine, List.map_eq_nil_iff] using hne
  · intro u hu
    obtain ⟨grp, hgrp, rfl⟩ := List.mem_map.mp hu
    have hne := splitPhrases_ne_nil maxLen _ [] grp hgrp
    simpa [mkPhrase, List.map_eq_nil_iff] using hne

/-- C9 witness: the two-token witness text partitions into nonempty
lines covering both tokens. -/
theorem unitize_partition_witness :
    ((unitize wToks wTags ⟨1, "latin"⟩ 10).1.map TextUnit.tokens).flatten =
      wToks :=
  (unitize_partition wToks wTags ⟨1, "latin"⟩ 10 (by decide)).1

/-- C10: tokenizer selection at the pipeline boundary is decided solely
by whether the language field equals "greek" — Greek texts get the Greek
tokenizer, and every other language value (including languages that are
neither Greek nor Latin) falls through to the Latin tokenizer, with no
error raised. -/
theorem selectTokenizer_by_language (language : String) :
    (language = "greek" → selectTokenizer language = .greek) ∧
      (language ≠ "greek" → selectTokenizer language = .latin) := by
  constructor <;> intro h <;> simp [selectTokenizer, h]

/-- C10 witness: `"greek"` selects the Greek tokenizer and the
unsupported language `"english"` still selects the Latin tokenizer. -/
theorem selectTokenizer_by_language_witness :
    selectTokenizer "greek" = .greek ∧ selectTokenizer "english" = .latin :=
  ⟨(selectTokenizer_by_language "greek").1 rfl,
    (selectTokenizer_by_language "english").2 (by decide)⟩

end Tesserae
